import Mathlib

/-!
Shallow embedding of `azure/core/pipeline/transport/_base_async.py` (azure-core
asynchronous HTTP transport abstraction) together with a spec-level model of the
multipart part decomposer and the transport lifecycle contract, and proofs of
the behavioural properties of that module.

Python strings and byte payloads are modelled as `List Char`; Python `None` as
`Option.none`; a Python call that may raise is a function into `Except PyErr`;
calls into the host concurrency runtime are recorded in an explicit event list.
-/

namespace AzureCore

/-- A Python byte/character sequence. -/
abbrev Bytes := List Char

/-- Exception values raised by the transport module. -/
inductive PyErr where
  | valueError (msg : String)
  | notImplementedError (msg : String)
  | stopIteration
  | responseStopIteration
  | transportError (msg : String)
deriving DecidableEq, Repr

/-- Python exception classes whose declarations appear in the source file
(`class _ResponseStopIteration(Exception)`); builtin classes are opaque. -/
inductive PyExcClass where
  | exceptionClass
  | stopIterationCls
  | responseStopIterationCls
deriving DecidableEq, Repr

/-- The declared base class of each exception class defined in the source file;
`none` for builtins whose bases the file does not declare. -/
def excBase : PyExcClass → Option PyExcClass
  | .responseStopIterationCls => some .exceptionClass
  | _ => none

/-- `leadsWith p s` is Python's `s.startswith(p)`: `p` is a prefix of `s`. -/
def leadsWith : Bytes → Bytes → Bool
  | [], _ => true
  | _ :: _, [] => false
  | p :: ps, c :: cs => p == c && leadsWith ps cs

/-- Python truthiness of an optional string: `None` and `""` are falsy. -/
def pyStrTruthy : Option Bytes → Bool
  | none => false
  | some s => !s.isEmpty

/-- The literal `"multipart/mixed"` checked by `AsyncHttpResponse.parts`. -/
def multipartMixed : Bytes :=
  ['m', 'u', 'l', 't', 'i', 'p', 'a', 'r', 't', '/', 'm', 'i', 'x', 'e', 'd']

/-- The response classes declared in (or referenced by) the source file. -/
inductive PyClass where
  | httpResponseBase
  | httpClientTransportResponse
  | asyncHttpResponse
  | asyncHttpClientTransportResponse
deriving DecidableEq, Repr

/-- The operations of the response surface named by the spec. -/
inductive ResponseOp where
  | statusOp
  | headersOp
  | bodyOp
  | partsOp
  | streamDownloadOp
deriving DecidableEq, Repr

/-- Which class introduces which response operation.  `asyncHttpResponse`
defines `parts` and `stream_download` in the source file.  Modelled from the
spec: the Response Envelope base (`_HttpResponseBase`, outside this excerpt)
exposes status code, headers and body bytes. -/
def definesOp : PyClass → ResponseOp → Bool
  | .asyncHttpResponse, .partsOp => true
  | .asyncHttpResponse, .streamDownloadOp => true
  | .httpResponseBase, .statusOp => true
  | .httpResponseBase, .headersOp => true
  | .httpResponseBase, .bodyOp => true
  | _, _ => false

/-- Ancestor lists (the class itself first) of the class declarations:
`AsyncHttpResponse(_HttpResponseBase, ...)`,
`_HttpClientTransportResponse(_HttpResponseBase)` and
`AsyncHttpClientTransportResponse(_HttpClientTransportResponse, AsyncHttpResponse)`. -/
def ancestors : PyClass → List PyClass
  | .httpResponseBase => [.httpResponseBase]
  | .httpClientTransportResponse => [.httpClientTransportResponse, .httpResponseBase]
  | .asyncHttpResponse => [.asyncHttpResponse, .httpResponseBase]
  | .asyncHttpClientTransportResponse =>
      [.asyncHttpClientTransportResponse, .httpClientTransportResponse,
       .asyncHttpResponse, .httpResponseBase]

/-- A class supports an operation when some ancestor defines it. -/
def supportsOp (c : PyClass) (op : ResponseOp) : Bool :=
  (ancestors c).any fun a => definesOp a op

/-- The observable state of one `AsyncHttpResponse`: its `content_type`
attribute (`None` or a string), the raw body bytes on the wire, and how many of
those bytes have been read from the underlying connection. -/
structure AsyncHttpResponse where
  content_type : Option Bytes
  body : Bytes
  bytesRead : Nat
deriving DecidableEq, Repr

/-- The `_PartGenerator(self, default_http_response_type=...)` value returned by
`parts`: a lazy iterator description, holding the parent response and the
factory-default part class, with no byte of the body consumed yet. -/
structure PartGenerator where
  response : AsyncHttpResponse
  defaultHttpResponseType : PyClass
deriving DecidableEq, Repr

/-- `AsyncHttpResponse.parts` (source lines 84-94): raise `ValueError` when
`self.content_type` is falsy or does not start with `"multipart/mixed"`,
otherwise return the lazy `_PartGenerator`.  The response state is returned
unchanged: the check is synchronous and reads no body byte. -/
def AsyncHttpResponse.parts (self : AsyncHttpResponse) :
    Except PyErr PartGenerator × AsyncHttpResponse :=
  if !pyStrTruthy self.content_type
      || !leadsWith multipartMixed (self.content_type.getD []) then
    (.error (.valueError "You can't get parts if the response is not multipart/mixed"), self)
  else
    (.ok ⟨self, .asyncHttpClientTransportResponse⟩, self)

/-- The claim-side condition: the content type is absent or does not begin with
`multipart/mixed`. -/
def ctAbsentOrNotMultipart : Option Bytes → Bool
  | none => true
  | some s => !leadsWith multipartMixed s

/-- Placeholder for the async byte-chunk iterator a concrete override of
`stream_download` would return; the abstract base never produces one. -/
structure AsyncByteChunkIter where
  chunks : List Bytes
deriving DecidableEq, Repr

/-- `AsyncHttpResponse.stream_download` (source lines 69-82): the abstract base
unconditionally raises `NotImplementedError`, for every pipeline argument and
keyword options, reading no body byte (state returned unchanged). -/
def AsyncHttpResponse.stream_download {P K : Type} (self : AsyncHttpResponse)
    (_pipeline : P) (_kwargs : K) : Except PyErr AsyncByteChunkIter × AsyncHttpResponse :=
  (.error (.notImplementedError "stream_download is not implemented."), self)

/-- `AsyncHttpResponse.__aexit__` (source lines 96-97): `return None`, for any
exception triple; the state is untouched (the abstract envelope holds no open
resource of its own). -/
def AsyncHttpResponse.aexit (self : AsyncHttpResponse)
    (_excType : Option PyExcClass) (_excValue : Option PyErr) (_tb : Option Unit) :
    Except PyErr (Option Bool) × AsyncHttpResponse :=
  (.ok none, self)

/-- Python's `async with` protocol: a propagating exception is suppressed
exactly when the value returned by `__aexit__` is truthy. -/
def aexitSuppresses (ret : Option Bool) : Bool :=
  ret.getD false

/-- Calls the transport issues into the host concurrency runtime. -/
inductive RuntimeCall where
  | asyncioSleep (duration : Rat)
deriving DecidableEq, Repr

/-- `AsyncHttpTransport.sleep` (source lines 137-151): `await
asyncio.sleep(duration)` — one delegation to the runtime delay primitive with
exactly the given duration, returning `None`, raising nothing of its own. -/
def AsyncHttpTransport.sleep (duration : Rat) : Except PyErr Unit × List RuntimeCall :=
  (.ok (), [.asyncioSleep duration])

/-- `_iterate_response_content` (source lines 48-60), as a transformer of the
outcome of `next(iterator)`: a `StopIteration` is re-raised as
`_ResponseStopIteration`; any other outcome (an item, or a different
exception) passes through unchanged. -/
def iterate_response_content {α : Type} (nextOutcome : Except PyErr α) :
    Except PyErr α :=
  match nextOutcome with
  | .error .stopIteration => .error .responseStopIteration
  | r => r

/-- `next()` on a Python iterator over a list of remaining items: yields the
head, or raises `StopIteration` when exhausted. -/
def nextItem {α : Type} : List α → Except PyErr (α × List α)
  | [] => .error .stopIteration
  | x :: xs => .ok (x, xs)

/-! ## Multipart part decomposer

Modelled from the spec: `_PartGenerator`'s parsing lives in the shared utility
`_pipeline_transport_rest_shared_async`, which is not part of this excerpt.
The model follows the spec's algorithm: read the boundary token from the
content-type header; each part is delimited by `--<token>` lines and the body
is terminated by `--<token>--`; within a segment, headers (lines `key: value`)
run up to an empty line, then the payload runs up to the next boundary. -/

/-- The CRLF line terminator. -/
def crlf : Bytes := ['\r', '\n']

/-- The `": "` separator between a header name and its value. -/
def colonSp : Bytes := [':', ' ']

/-- Splits `s` at the first occurrence of `delim`, returning the part before
the occurrence and the part after it; `none` when `delim` does not occur. -/
def splitFirst (delim : Bytes) : Bytes → Option (Bytes × Bytes)
  | [] => if delim.isEmpty then some ([], []) else none
  | c :: rest =>
    if leadsWith delim (c :: rest) then some ([], (c :: rest).drop delim.length)
    else
      match splitFirst delim rest with
      | some (a, b) => some (c :: a, b)
      | none => none

/-- `xs` is free of `delim`, including occurrences straddling its right end:
scanning `xs ++ delim` finds the delimiter exactly at the end. -/
def splitClean (delim xs : Bytes) : Prop :=
  splitFirst delim (xs ++ delim) = some (xs, [])

instance (delim xs : Bytes) : Decidable (splitClean delim xs) :=
  inferInstanceAs (Decidable (splitFirst delim (xs ++ delim) = some (xs, [])))

/-- One sub-response carved out of a multipart body: its header list and the
payload bytes between its boundaries. -/
structure MimePart where
  headers : List (Bytes × Bytes)
  body : Bytes
deriving DecidableEq, Repr

/-- `--<token>`. -/
def dashB (B : Bytes) : Bytes := '-' :: '-' :: B

/-- The delimiter announcing the next boundary after a payload: `\r\n--<token>`. -/
def partDelim (B : Bytes) : Bytes := crlf ++ dashB B

/-- Renders a header list, one `key: value\r\n` line each. -/
def renderHeaders : List (Bytes × Bytes) → Bytes
  | [] => []
  | (k, v) :: hs => k ++ colonSp ++ v ++ crlf ++ renderHeaders hs

/-- Renders one segment: header lines, the empty line, then the payload. -/
def renderSegment (p : MimePart) : Bytes :=
  renderHeaders p.headers ++ crlf ++ p.body

/-- Renders the tail of a multipart body after a `--<token>\r\n` opener has
been consumed: the current segment, then either the closing `\r\n--<token>--`
or a `\r\n--<token>\r\n` divider and the remaining segments. -/
def renderRem (B : Bytes) : List MimePart → Bytes
  | [] => []
  | [p] => renderSegment p ++ partDelim B ++ ['-', '-']
  | p :: ps => renderSegment p ++ partDelim B ++ crlf ++ renderRem B ps

/-- Renders a whole `multipart/mixed` body with boundary token `B`. -/
def renderMultipart (B : Bytes) : List MimePart → Bytes
  | [] => dashB B ++ ['-', '-']
  | p :: ps => dashB B ++ crlf ++ renderRem B (p :: ps)

/-- Parses the header block of a segment: header lines up to the empty line,
returning the headers and the bytes following the empty line.  `fuel` bounds
the number of header lines. -/
def parseHeadersAux : Nat → Bytes → Option (List (Bytes × Bytes) × Bytes)
  | 0, s => if leadsWith crlf s then some ([], s.drop 2) else none
  | fuel + 1, s =>
    if leadsWith crlf s then some ([], s.drop 2)
    else
      match splitFirst crlf s with
      | none => none
      | some (line, rest) =>
        match splitFirst colonSp line with
        | none => none
        | some (k, v) =>
          match parseHeadersAux fuel rest with
          | none => none
          | some (hs, payload) => some ((k, v) :: hs, payload)

/-- Parses the segments of a multipart body after a `--<token>\r\n` opener:
headers, then the payload up to the next `\r\n--<token>`, which either closes
the body with `--` or opens the next segment with `\r\n`. -/
def parsePartsAux : Nat → Bytes → Bytes → Option (List MimePart)
  | 0, _, _ => none
  | fuel + 1, B, s =>
    match parseHeadersAux s.length s with
    | none => none
    | some (hs, afterH) =>
      match splitFirst (partDelim B) afterH with
      | none => none
      | some (payload, rest) =>
        if rest = ['-', '-'] then some [⟨hs, payload⟩]
        else if leadsWith crlf rest then
          match parsePartsAux fuel B (rest.drop 2) with
          | none => none
          | some ps => some (⟨hs, payload⟩ :: ps)
        else none

/-- Strips a leading `p` from `s`, failing when `p` is not a prefix. -/
def dropLead (p s : Bytes) : Option Bytes :=
  if leadsWith p s then some (s.drop p.length) else none

/-- Parses a whole `multipart/mixed` body with boundary token `B` into its
parts: either the empty body `--<token>--`, or a `--<token>\r\n` opener
followed by the segments. -/
def parseMultipart (B s : Bytes) : Option (List MimePart) :=
  if s = dashB B ++ ['-', '-'] then some []
  else
    match dropLead (dashB B ++ crlf) s with
    | none => none
    | some s' => parsePartsAux s'.length B s'

/-- The `boundary=` parameter key of the content-type header. -/
def boundaryKey : Bytes := ['b', 'o', 'u', 'n', 'd', 'a', 'r', 'y', '=']

/-- Reads the boundary token out of a content-type header value: everything
after the first `boundary=`. -/
def extractBoundary (ct : Bytes) : Option Bytes :=
  match splitFirst boundaryKey ct with
  | some (_, b) => some b
  | none => none

/-- Runs the lazy part iterator to completion: reads the boundary from the
parent's content-type header and decomposes the parent body. -/
def PartGenerator.toParts (g : PartGenerator) : Option (List MimePart) :=
  match g.response.content_type with
  | none => none
  | some ct =>
    match extractBoundary ct with
    | none => none
    | some B => parseMultipart B g.response.body

/-- `"multipart/mixed; "`, the content-type text before the boundary key. -/
def ctPre : Bytes := multipartMixed ++ [';', ' ']

/-- A content-type header value `multipart/mixed; boundary=<B>`. -/
def multipartCT (B : Bytes) : Bytes := ctPre ++ boundaryKey ++ B

/-- A header line is well formed when its name is free of `": "` and the whole
`name: value` line is free of CRLF. -/
def headerOk (kv : Bytes × Bytes) : Prop :=
  splitClean colonSp kv.1 ∧ splitClean crlf (kv.1 ++ colonSp ++ kv.2)

instance (kv : Bytes × Bytes) : Decidable (headerOk kv) :=
  inferInstanceAs
    (Decidable (splitClean colonSp kv.1 ∧ splitClean crlf (kv.1 ++ colonSp ++ kv.2)))

/-- A part is well formed for boundary `B` when its header lines are well
formed and its payload is free of the `\r\n--<B>` delimiter. -/
def partOk (B : Bytes) (p : MimePart) : Prop :=
  (∀ kv ∈ p.headers, headerOk kv) ∧ splitClean (partDelim B) p.body

instance (B : Bytes) (p : MimePart) : Decidable (partOk B p) :=
  inferInstanceAs
    (Decidable ((∀ kv ∈ p.headers, headerOk kv) ∧ splitClean (partDelim B) p.body))

/-! ## Transport lifecycle and scoped acquisition

Modelled from the spec: `open`, `close` and `send` are abstract in the source
file; the spec fixes their lifecycle contract (§3, §4.3): states
unopened → open → closed, `close` idempotently releases the owned resource and
is a no-op when the resource is externally owned, and scoped acquisition runs
`open` on enter and `close` on every exit path. -/

/-- The lifecycle states of a Transport. -/
inductive TransportLifecycle where
  | unopened
  | opened
  | closed
deriving DecidableEq, Repr

/-- A Transport's resource-lifecycle state: its lifecycle phase, whether it
owns its session, and whether the underlying resource is still alive. -/
structure TransportModel where
  lifecycle : TransportLifecycle
  ownsResource : Bool
  resourceAlive : Bool
deriving DecidableEq, Repr

/-- Modelled from the spec: `close` idempotently releases owned resources; on
an already-closed transport it is a no-op; an externally owned resource is
never released.  It raises nothing. -/
def TransportModel.close (t : TransportModel) : Except PyErr TransportModel :=
  match t.lifecycle with
  | .closed => .ok t
  | _ =>
      .ok ⟨.closed, t.ownsResource, if t.ownsResource then false else t.resourceAlive⟩

/-- Events observable on a transport during scoped acquisition. -/
inductive TransportEv where
  | openEv
  | sendEv
  | closeEv
deriving DecidableEq, Repr

/-- A transport action: appends its events to the trace and yields an outcome. -/
abbrev TAction (α : Type) := List TransportEv → Except PyErr α × List TransportEv

/-- Modelled from the spec: scoped acquisition — `open` on enter, then the
body, then `close` on every exit path including thrown errors (try/finally
semantics of `async with`). -/
def scopedAcquire {α : Type} (openA : TAction Unit) (body : TAction α)
    (closeA : TAction Unit) : TAction α :=
  fun tr =>
    match openA tr with
    | (.error e, tr1) => (.error e, tr1)
    | (.ok _, tr1) =>
      match body tr1 with
      | (r, tr2) =>
        match closeA tr2 with
        | (.ok _, tr3) => (r, tr3)
        | (.error e, tr3) => (.error e, tr3)

/-- A transport's `open`, recorded in the trace and succeeding. -/
def openAction : TAction Unit := fun tr => (.ok (), tr ++ [.openEv])

/-- A transport's `close`, recorded in the trace and succeeding. -/
def closeAction : TAction Unit := fun tr => (.ok (), tr ++ [.closeEv])

/-- A transport's `send` with a prescribed outcome (a response, or a raised
transport error), recorded in the trace. -/
def sendAction {α : Type} (outcome : Except PyErr α) : TAction α :=
  fun tr => (outcome, tr ++ [.sendEv])

/-! ## Concrete scenario values -/

/-- The single part of the spec's multipart scenario: content-type
`application/json`, payload the seven characters of the spec's one-segment
JSON object. -/
def scenarioParts : List MimePart :=
  [⟨[("Content-Type".toList, "application/json".toList)], "\x7b\"a\":1\x7d".toList⟩]

/-- The scenario response: `Content-Type: multipart/mixed; boundary=B` and the
rendered one-part body. -/
def scenarioResp : AsyncHttpResponse :=
  ⟨some (multipartCT ['B']), renderMultipart ['B'] scenarioParts, 0⟩

/-- A non-multipart response (`Content-Type: application/json`). -/
def jsonResp : AsyncHttpResponse :=
  ⟨some "application/json".toList, "\x7b\"value\":[]\x7d".toList, 0⟩

/-! ## Helper lemmas about prefix scanning and delimiter splitting -/

lemma leadsWith_append_self (p r : Bytes) : leadsWith p (p ++ r) = true := by
  induction p with
  | nil => rfl
  | cons c cs ih => simp [leadsWith, ih]

lemma leadsWith_of_append_le (p : Bytes) :
    ∀ (y b : Bytes), p.length ≤ y.length → leadsWith p (y ++ b) = leadsWith p y := by
  induction p with
  | nil => intro y b _; rfl
  | cons c cs ih =>
    intro y b hlen
    cases y with
    | nil => simp at hlen
    | cons y0 ys =>
      simp only [List.cons_append, leadsWith]
      simp [List.append_eq, ih ys b (by simpa using hlen)]

lemma splitFirst_of_splitClean (delim : Bytes) (hne : delim ≠ []) :
    ∀ (xs b : Bytes), splitClean delim xs →
      splitFirst delim (xs ++ delim ++ b) = some (xs, b) := by
  intro xs
  induction xs with
  | nil =>
    intro b _
    cases delim with
    | nil => exact absurd rfl hne
    | cons d ds =>
      have hlw := leadsWith_append_self (d :: ds) b
      show splitFirst (d :: ds) (([] ++ (d :: ds)) ++ b) = some ([], b)
      rw [List.nil_append, List.cons_append]
      rw [List.cons_append] at hlw
      simp [splitFirst, hlw, List.drop_left ]
  | cons c cs ih =>
    intro b hclean
    unfold splitClean at hclean
    rw [List.cons_append] at hclean
    cases h : leadsWith delim (c :: (cs ++ delim)) with
    | true =>
      simp only [splitFirst, h] at hclean
      simp at hclean
    | false =>
      simp only [splitFirst, h, Bool.false_eq_true, if_false] at hclean
      have hcs : splitClean delim cs := by
        unfold splitClean
        cases hsf : splitFirst delim (cs ++ delim) with
        | none => rw [hsf] at hclean; simp at hclean
        | some ab =>
          obtain ⟨a, b'⟩ := ab
          rw [hsf] at hclean
          simp at hclean
          obtain ⟨ha, hb⟩ := hclean
          rw [ha, hb]
      have hlw : leadsWith delim (c :: (cs ++ delim ++ b)) = false := by
        have e : c :: (cs ++ delim ++ b) = (c :: (cs ++ delim)) ++ b := by simp
        rw [e, leadsWith_of_append_le delim (c :: (cs ++ delim)) b (by simp; omega), h]
      have goalE : ((c :: cs) ++ delim) ++ b = c :: (cs ++ delim ++ b) := by simp
      rw [goalE]
      simp only [splitFirst, hlw, Bool.false_eq_true, if_false, ih b hcs]

lemma leadsWith_false_of_splitClean (delim xs b : Bytes) (_hne : delim ≠ [])
    (hxs : xs ≠ []) (hclean : splitClean delim xs) :
    leadsWith delim ((xs ++ delim) ++ b) = false := by
  by_contra hcon
  rw [Bool.not_eq_false] at hcon
  rw [leadsWith_of_append_le delim (xs ++ delim) b (by simp)] at hcon
  unfold splitClean at hclean
  cases hxd : xs ++ delim with
  | nil =>
    rcases List.append_eq_nil.mp hxd with ⟨h1, _⟩
    exact hxs h1
  | cons c rest =>
    rw [hxd] at hclean hcon
    simp only [splitFirst, hcon, if_true] at hclean
    simp at hclean
    exact hxs hclean.1

lemma renderHeaders_length_ge (hs : List (Bytes × Bytes)) :
    hs.length ≤ (renderHeaders hs).length := by
  induction hs with
  | nil => simp [renderHeaders]
  | cons kv hs ih =>
    obtain ⟨k, v⟩ := kv
    simp only [renderHeaders, List.length_append, List.length_cons]
    simp [colonSp, crlf] at ih ⊢
    omega

lemma parseHeadersAux_render (hs : List (Bytes × Bytes)) :
    ∀ (tail : Bytes) (fuel : Nat), hs.length ≤ fuel → (∀ kv ∈ hs, headerOk kv) →
      parseHeadersAux fuel ((renderHeaders hs ++ crlf) ++ tail) = some (hs, tail) := by
  induction hs with
  | nil =>
    intro tail fuel _ _
    have hlw : leadsWith crlf ((([] : Bytes) ++ crlf) ++ tail) = true := by
      rw [List.nil_append]; exact leadsWith_append_self crlf tail
    rw [List.nil_append] at hlw
    have hdrop : (crlf ++ tail).drop 2 = tail := rfl
    cases fuel with
    | zero => simp [parseHeadersAux, renderHeaders, hlw, hdrop]
    | succ f => simp [parseHeadersAux, renderHeaders, hlw, hdrop]
  | cons kv hs ih =>
    intro tail fuel hfuel hok
    obtain ⟨k, v⟩ := kv
    have hkOk : headerOk (k, v) := hok (k, v) (by simp)
    have hsOk : ∀ kv ∈ hs, headerOk kv := fun kv h => hok kv (by simp [h])
    cases fuel with
    | zero => simp at hfuel
    | succ f =>
      have hf' : hs.length ≤ f := by
        simp only [List.length_cons] at hfuel
        omega
      have hline : (k ++ colonSp ++ v) ≠ [] := by simp [colonSp]
      have hsp1 := splitFirst_of_splitClean crlf (by simp [crlf])
        (k ++ colonSp ++ v) ((renderHeaders hs ++ crlf) ++ tail) hkOk.2
      have hsp2 := splitFirst_of_splitClean colonSp (by simp [colonSp]) k v hkOk.1
      have hlw := leadsWith_false_of_splitClean crlf (k ++ colonSp ++ v)
        ((renderHeaders hs ++ crlf) ++ tail) (by simp [crlf]) hline hkOk.2
      have e : (renderHeaders ((k, v) :: hs) ++ crlf) ++ tail =
          ((k ++ colonSp ++ v) ++ crlf) ++ ((renderHeaders hs ++ crlf) ++ tail) := by
        simp [renderHeaders]
      rw [e]
      simp only [parseHeadersAux, hlw, Bool.false_eq_true, if_false, hsp1, hsp2,
        ih tail f hf' hsOk]

lemma renderRem_length_ge (B : Bytes) :
    ∀ (ps : List MimePart), ps.length ≤ (renderRem B ps).length := by
  intro ps
  induction ps with
  | nil => simp [renderRem]
  | cons p ps ih =>
    cases ps with
    | nil =>
      simp [renderRem, renderSegment, partDelim, crlf, dashB]
      omega
    | cons q rest =>
      simp only [renderRem, List.length_append, List.length_cons]
      simp [renderSegment, partDelim, crlf, dashB] at ih ⊢
      omega

lemma partDelim_ne_nil (B : Bytes) : partDelim B ≠ [] := by
  simp [partDelim, crlf]

lemma parsePartsAux_renderRem (B : Bytes) :
    ∀ (ps : List MimePart) (p : MimePart) (fuel : Nat),
      (∀ q ∈ p :: ps, partOk B q) → (p :: ps).length ≤ fuel →
      parsePartsAux fuel B (renderRem B (p :: ps)) = some (p :: ps) := by
  intro ps
  induction ps with
  | nil =>
    intro p fuel hok hfuel
    have hpOk : partOk B p := hok p (by simp)
    cases fuel with
    | zero => simp at hfuel
    | succ f =>
      have e : renderRem B [p] =
          (renderHeaders p.headers ++ crlf) ++
            ((p.body ++ partDelim B) ++ ['-', '-']) := by
        simp [renderRem, renderSegment]
      rw [e]
      have hfl : p.headers.length ≤
          ((renderHeaders p.headers ++ crlf) ++
            ((p.body ++ partDelim B) ++ ['-', '-'])).length := by
        have := renderHeaders_length_ge p.headers
        simp only [List.length_append]
        omega
      have hsp := parseHeadersAux_render p.headers
        ((p.body ++ partDelim B) ++ ['-', '-'])
        ((renderHeaders p.headers ++ crlf) ++
          ((p.body ++ partDelim B) ++ ['-', '-'])).length hfl hpOk.1
      have hsplit := splitFirst_of_splitClean (partDelim B) (partDelim_ne_nil B)
        p.body ['-', '-'] hpOk.2
      simp only [parsePartsAux, hsp, hsplit]
      simp
  | cons q rest ih =>
    intro p fuel hok hfuel
    have hpOk : partOk B p := hok p (by simp)
    have hqrOk : ∀ x ∈ q :: rest, partOk B x := fun x h => hok x (by simp [h])
    cases fuel with
    | zero => simp at hfuel
    | succ f =>
      have hf' : (q :: rest).length ≤ f := by
        simp only [List.length_cons] at hfuel ⊢
        omega
      have e : renderRem B (p :: q :: rest) =
          (renderHeaders p.headers ++ crlf) ++
            ((p.body ++ partDelim B) ++ (crlf ++ renderRem B (q :: rest))) := by
        simp [renderRem, renderSegment]
      rw [e]
      have hfl : p.headers.length ≤
          ((renderHeaders p.headers ++ crlf) ++
            ((p.body ++ partDelim B) ++ (crlf ++ renderRem B (q :: rest)))).length := by
        have := renderHeaders_length_ge p.headers
        simp only [List.length_append]
        omega
      have hsp := parseHeadersAux_render p.headers
        ((p.body ++ partDelim B) ++ (crlf ++ renderRem B (q :: rest)))
        ((renderHeaders p.headers ++ crlf) ++
          ((p.body ++ partDelim B) ++ (crlf ++ renderRem B (q :: rest)))).length hfl hpOk.1
      have hsplit := splitFirst_of_splitClean (partDelim B) (partDelim_ne_nil B)
        p.body (crlf ++ renderRem B (q :: rest)) hpOk.2
      have hnotEnd : (crlf ++ renderRem B (q :: rest)) ≠ ['-', '-'] := by
        simp [crlf]
      have hlw : leadsWith crlf (crlf ++ renderRem B (q :: rest)) = true :=
        leadsWith_append_self crlf _
      have hdrop : (crlf ++ renderRem B (q :: rest)).drop 2 = renderRem B (q :: rest) := rfl
      simp only [parsePartsAux, hsp, hsplit, if_neg hnotEnd, hlw, if_true, hdrop,
        ih q f hqrOk hf']

lemma parseMultipart_renderMultipart (B : Bytes) (ps : List MimePart)
    (hok : ∀ p ∈ ps, partOk B p) :
    parseMultipart B (renderMultipart B ps) = some ps := by
  cases ps with
  | nil => simp [parseMultipart, renderMultipart]
  | cons p rest =>
    have e : renderMultipart B (p :: rest) =
        (dashB B ++ crlf) ++ renderRem B (p :: rest) := by
      simp [renderMultipart]
    have hne : renderMultipart B (p :: rest) ≠ dashB B ++ ['-', '-'] := by
      rw [e]
      intro h
      rw [List.append_assoc] at h
      have h2 := congrArg (List.drop (List.length (dashB B))) h
      simp only [List.drop_left] at h2
      simp [crlf] at h2
    have hlead : leadsWith (dashB B ++ crlf)
        ((dashB B ++ crlf) ++ renderRem B (p :: rest)) = true :=
      leadsWith_append_self _ _
    have hdl : dropLead (dashB B ++ crlf)
        ((dashB B ++ crlf) ++ renderRem B (p :: rest)) =
        some (renderRem B (p :: rest)) := by
      simp only [dropLead, hlead, if_true, List.drop_left]
    rw [parseMultipart, if_neg hne, e, hdl]
    exact parsePartsAux_renderRem B rest p (renderRem B (p :: rest)).length hok
      (renderRem_length_ge B (p :: rest))

lemma extractBoundary_multipartCT (B : Bytes) :
    extractBoundary (multipartCT B) = some B := by
  have h := splitFirst_of_splitClean boundaryKey (by simp [boundaryKey]) ctPre B
    (by decide)
  simp only [extractBoundary, multipartCT, h]

lemma leadsWith_multipartCT (B : Bytes) :
    leadsWith multipartMixed (multipartCT B) = true := by
  have e : multipartCT B = multipartMixed ++ (([';', ' '] ++ boundaryKey) ++ B) := by
    simp [multipartCT, ctPre]
  rw [e]
  exact leadsWith_append_self _ _

lemma multipartCT_truthy (B : Bytes) : pyStrTruthy (some (multipartCT B)) = true := by
  simp [pyStrTruthy, multipartCT, ctPre, multipartMixed]

/-! ## Claim theorems -/

/-- C1: for every response, `parts()` raises `ValueError` exactly when the
content type is absent or does not begin with `multipart/mixed`; the check is
synchronous — the response state (hence its body-read count) is untouched —
and when the check passes the lazy `_PartGenerator` is returned instead of
raising. -/
theorem parts_valueError_iff (r : AsyncHttpResponse) :
    r.parts =
      (if ctAbsentOrNotMultipart r.content_type then
        Except.error
          (PyErr.valueError "You can't get parts if the response is not multipart/mixed")
      else Except.ok ⟨r, PyClass.asyncHttpClientTransportResponse⟩, r) := by
  unfold AsyncHttpResponse.parts ctAbsentOrNotMultipart
  cases hct : r.content_type with
  | none => simp [pyStrTruthy]
  | some s =>
    cases s with
    | nil => simp [pyStrTruthy, leadsWith, multipartMixed]
    | cons c cs =>
      simp only [pyStrTruthy, List.isEmpty_cons, Bool.not_false, Bool.true_and,
        Option.getD_some, Bool.not_true, Bool.false_or]
      split <;> rfl

/-- C2: invoking `stream_download` on the abstract response base raises
`NotImplementedError` unconditionally — for every pipeline argument and every
options value — and reads no body byte (the response state is unchanged). -/
theorem stream_download_notImplemented {P K : Type} (p : P) (k : K)
    (r : AsyncHttpResponse) :
    r.stream_download p k =
      (Except.error (PyErr.notImplementedError "stream_download is not implemented."), r) :=
  rfl

/-- C3: for every well-formed `multipart/mixed` body with N segments,
`parts()` succeeds and running the returned generator yields exactly those N
`Part` objects, each with the headers of its segment and a body equal to the
bytes between its boundaries. -/
theorem parts_multipart_yields_segments (B : Bytes) (ps : List MimePart)
    (hok : ∀ p ∈ ps, partOk B p) (r : AsyncHttpResponse)
    (hct : r.content_type = some (multipartCT B))
    (hbody : r.body = renderMultipart B ps) :
    ∃ g : PartGenerator,
      r.parts = (Except.ok g, r) ∧
      g.toParts = some ps ∧
      g.toParts.map List.length = some ps.length := by
  refine ⟨⟨r, .asyncHttpClientTransportResponse⟩, ?_, ?_, ?_⟩
  · have h1 : pyStrTruthy r.content_type = true := by
      rw [hct]; exact multipartCT_truthy B
    have h2 : leadsWith multipartMixed (r.content_type.getD []) = true := by
      rw [hct]; exact leadsWith_multipartCT B
    unfold AsyncHttpResponse.parts
    rw [h1, h2]
    simp
  · unfold PartGenerator.toParts
    simp only
    rw [hct, hbody]
    simp only [extractBoundary_multipartCT]
    exact parseMultipart_renderMultipart B ps hok
  · unfold PartGenerator.toParts
    simp only
    rw [hct, hbody]
    simp only [extractBoundary_multipartCT]
    rw [parseMultipart_renderMultipart B ps hok]
    simp

/-- Witness for C3 at the spec's concrete scenario: boundary `B`, one segment
with `Content-Type: application/json` and the spec's JSON object payload. -/
theorem parts_multipart_yields_segments_witness :
    (∀ p ∈ scenarioParts, partOk ['B'] p) ∧
    ∃ g : PartGenerator,
      scenarioResp.parts = (Except.ok g, scenarioResp) ∧
      g.toParts = some scenarioParts ∧
      g.toParts.map List.length = some scenarioParts.length :=
  ⟨by decide,
    parts_multipart_yields_segments ['B'] scenarioParts (by decide) scenarioResp rfl rfl⟩

/-- C4: for every duration `d ≥ 0`, the transport's default `sleep` delegates
to the host runtime's delay primitive (`asyncio.sleep`) with exactly that
duration, returning no value and raising nothing. -/
theorem sleep_delegates (d : Rat) (_h : 0 ≤ d) :
    AsyncHttpTransport.sleep d = (Except.ok (), [RuntimeCall.asyncioSleep d]) :=
  rfl

/-- Witness for C4 at duration 1. -/
theorem sleep_delegates_witness :
    (0 : Rat) ≤ 1 ∧
      AsyncHttpTransport.sleep 1 = (Except.ok (), [RuntimeCall.asyncioSleep 1]) :=
  ⟨by norm_num, sleep_delegates 1 (by norm_num)⟩

/-- C5: scoped acquisition around a transport (modelled from the spec's
contract) calls `open` on enter and `close` on every exit path: for every
outcome of `send`, including a raised transport error, the event trace records
open, send, then close, and the outcome — error included — still reaches the
outer caller. -/
theorem scoped_acquisition_closes {α : Type} (outcome : Except PyErr α) :
    scopedAcquire openAction (sendAction outcome) closeAction [] =
      (outcome, [TransportEv.openEv, TransportEv.sendEv, TransportEv.closeEv]) :=
  rfl

/-- C6: `__aexit__` returns Python `None` for every exception triple and
normal exit alike: it completes without raising, releases nothing it holds
(the abstract envelope owns no open resource; its state is unchanged), and a
`None` return never suppresses the propagating exception. -/
theorem aexit_never_suppresses (r : AsyncHttpResponse) (t : Option PyExcClass)
    (v : Option PyErr) (tb : Option Unit) :
    r.aexit t v tb = (Except.ok none, r) ∧ aexitSuppresses none = false :=
  ⟨rfl, rfl⟩

/-- C7: `close` (modelled from the spec's lifecycle contract) always succeeds
and lands in the closed state; closing again is a no-op returning the state
unchanged — in particular, on any already-closed transport, `close` returns
the state itself and does not raise. -/
theorem close_idempotent (t : TransportModel) :
    (∃ t', t.close = Except.ok t' ∧ t'.lifecycle = TransportLifecycle.closed ∧
      t'.close = Except.ok t') ∧
    TransportModel.close ⟨TransportLifecycle.closed, t.ownsResource, t.resourceAlive⟩ =
      Except.ok ⟨TransportLifecycle.closed, t.ownsResource, t.resourceAlive⟩ := by
  constructor
  · cases h : t.lifecycle with
    | closed =>
      refine ⟨t, ?_, h, ?_⟩ <;> simp only [TransportModel.close, h]
    | unopened =>
      refine ⟨⟨.closed, t.ownsResource, if t.ownsResource then false else t.resourceAlive⟩,
        ?_, rfl, rfl⟩
      simp only [TransportModel.close, h]
    | opened =>
      refine ⟨⟨.closed, t.ownsResource, if t.ownsResource then false else t.resourceAlive⟩,
        ?_, rfl, rfl⟩
      simp only [TransportModel.close, h]
  · rfl

/-- C8: `parts()` hands the part generator the factory default
`AsyncHttpClientTransportResponse`, and that default class is itself a
response envelope: it supports every operation its parent
(`AsyncHttpResponse`) supports, and the full response surface — status,
headers, body access, parts, stream_download. -/
theorem parts_default_type_is_envelope (r : AsyncHttpResponse)
    (g : PartGenerator) (s : AsyncHttpResponse)
    (h : r.parts = (Except.ok g, s)) :
    g.defaultHttpResponseType = PyClass.asyncHttpClientTransportResponse ∧
    (∀ op, supportsOp PyClass.asyncHttpResponse op = true →
      supportsOp PyClass.asyncHttpClientTransportResponse op = true) ∧
    (∀ op, supportsOp PyClass.asyncHttpClientTransportResponse op = true) := by
  refine ⟨?_, fun op _ => by cases op <;> rfl, fun op => by cases op <;> rfl⟩
  unfold AsyncHttpResponse.parts at h
  split at h
  · simp at h
  · simp only [Prod.mk.injEq, Except.ok.injEq] at h
    rw [← h.1]

/-- Witness for C8 at the concrete multipart scenario response. -/
theorem parts_default_type_is_envelope_witness :
    (PartGenerator.mk scenarioResp PyClass.asyncHttpClientTransportResponse).defaultHttpResponseType
        = PyClass.asyncHttpClientTransportResponse ∧
    (∀ op, supportsOp PyClass.asyncHttpResponse op = true →
      supportsOp PyClass.asyncHttpClientTransportResponse op = true) ∧
    (∀ op, supportsOp PyClass.asyncHttpClientTransportResponse op = true) :=
  parts_default_type_is_envelope scenarioResp
    ⟨scenarioResp, .asyncHttpClientTransportResponse⟩ scenarioResp rfl

/-- C9: `_iterate_response_content` yields the iterator's next item when one
exists; on exhaustion it raises `_ResponseStopIteration` — declared a plain
`Exception` subtype — instead of letting `StopIteration` escape; and it
introduces no other exception kind: any other error passes through unchanged. -/
theorem iterate_response_content_spec :
    (∀ (α : Type) (x : α) (xs : List α),
      iterate_response_content (nextItem (x :: xs)) = Except.ok (x, xs)) ∧
    (iterate_response_content (nextItem ([] : List Nat)) =
      Except.error PyErr.responseStopIteration) ∧
    (∀ e : PyErr, @iterate_response_content Nat (Except.error e) =
      Except.error (if e = PyErr.stopIteration then PyErr.responseStopIteration else e)) ∧
    excBase PyExcClass.responseStopIterationCls = some PyExcClass.exceptionClass := by
  refine ⟨fun α x xs => rfl, rfl, fun e => ?_, rfl⟩
  cases e <;> rfl

/-- C10: the default `sleep` enforces no `duration ≥ 0` precondition: for
every duration, negative ones included, it raises no error of its own and
unconditionally delegates the duration to the runtime delay primitive. -/
theorem sleep_no_precondition_check :
    (∀ d : Rat, AsyncHttpTransport.sleep d = (Except.ok (), [RuntimeCall.asyncioSleep d])) ∧
    AsyncHttpTransport.sleep (-1) = (Except.ok (), [RuntimeCall.asyncioSleep (-1)]) :=
  ⟨fun _ => rfl, rfl⟩

